import Mathlib

/-!
Verification development for the paper-optimizer repository.

The embedding follows `src/ai_scientist/paper_optimizer.py`:

* Python dicts are modelled as association lists keyed by `String`; `get`
  with a default is `dictGetD`, assignment `d[k] = v` is `dictSet`.
* `calculate_paper_score` (lines 42-45) is translated literally: the sum of
  the four metric values (each defaulted to 1 when absent) divided by the
  number of metrics.  Python floats over these small integer inputs are
  exact, so scores are rationals.
* `optimize_paper` (lines 63-150) is a while loop around calls to external
  collaborators (`perform_writeup`, `perform_review`, `get_meta_review`,
  `get_improvement_suggestions`).  Those collaborators are an oracle
  (`Env`): deterministic functions of the iteration index, which captures
  an arbitrary but fixed sequence of remote responses.  The loop body also
  appends to an event trace recording each external step in call order,
  so ordering claims are statements about that trace.
-/

namespace PaperOptimizer

/-- Metric names used by `calculate_paper_score` (source line 44). -/
def metrics : List String := ["Originality", "Quality", "Clarity", "Significance"]

/-- Python `d.get(k, v)`: the value bound to `k`, or the default `v`. -/
def dictGetD {α : Type} (d : List (String × α)) (k : String) (v : α) : α :=
  (d.lookup k).getD v

/-- Python `d[k] = v`: replace the binding of `k` if present, else append it. -/
def dictSet {α : Type} (k : String) (v : α) : List (String × α) → List (String × α)
  | [] => [(k, v)]
  | (k', v') :: d => if k' = k then (k, v) :: d else (k', v') :: dictSet k v d

/-- Python `del d[k]` (or building a dict without the key): drop every binding of `k`. -/
def dictRemove {α : Type} (k : String) (d : List (String × α)) : List (String × α) :=
  d.filter (fun p => p.1 != k)

/-- A Review (or MetaReview) as consumed by the score calculator: a mapping
with numeric metric entries.  Free-text fields are not inspected by the code
under verification and are not modelled. -/
abbrev Review := List (String × ℚ)

/-- Source lines 42-45:
`return sum(review.get(metric, 1) for metric in metrics) / len(metrics)`. -/
def calculate_paper_score (review : Review) : ℚ :=
  ((metrics.map (fun m => dictGetD review m 1)).sum) / (metrics.length : ℚ)

/-!
Embedding of `optimize_paper` (source lines 63-150).

The idea dict and the parsed improvement suggestions hold arbitrary JSON
values that the loop moves around without inspecting; their value type is a
parameter `α`.  External collaborator responses are an oracle `Env` of
deterministic functions of the iteration index (and sample index for the
per-iteration reviews), which models an arbitrary fixed transcript of remote
responses.  Each external step is also logged in an event trace in the order
the source performs the calls.
-/

/-- The idea dict (free-form keys, opaque values). -/
abbrev Idea (α : Type) := List (String × α)

/-- The mapping parsed from the improvement response (lines 47-61): the loop
reads exactly its `improvements` and `priority` entries (lines 137-138). -/
structure ImprovementSet (α : Type) where
  improvements : α
  priority : α
deriving DecidableEq

/-- One entry of `improvement_history` (lines 141-146). -/
structure IterationRecord (α : Type) where
  iteration : Nat
  score : ℚ
  review : Review
  improvements : Option (ImprovementSet α)
deriving DecidableEq

/-- Trace entries, one per step of the loop body, in source order:
`perform_writeup` (line 95), each `perform_review` call with its
`num_reflections` argument and whether the negative-bias reviewer prompt
was passed (lines 106-113), `get_meta_review` with the number of reviews
aggregated (line 117), computing the score (line 125), the conditional
`get_improvement_suggestions` call (line 129), and the history append
(line 141). -/
inductive Event where
  | writeup (iteration : Nat)
  | review (iteration sample numReflections : Nat) (negPrompt : Bool)
  | metaReview (iteration numReviews : Nat)
  | scored (iteration : Nat) (score : ℚ)
  | suggest (iteration : Nat)
  | record (iteration : Nat)
deriving DecidableEq

/-- Oracle for the external collaborators: the review returned by the
`sample`-th `perform_review` call of iteration `i`, the meta-review
aggregated from a list of reviews at iteration `i`, and the improvement set
parsed from the suggestion response at iteration `i`. -/
structure Env (α : Type) where
  reviewAt : Nat → Nat → Review
  metaAt : Nat → List Review → Review
  suggestAt : Nat → Review → ImprovementSet α

/-- The mutable locals of the loop other than `current_score` and
`iteration`: the idea dict (mutated in place, lines 137-138), the
`improvement_history` list (line 89), the `meta_review` variable (line 117;
`none` models the variable being unbound before the first assignment,
which makes line 150 raise), plus the event trace. -/
structure LoopState (α : Type) where
  idea : Idea α
  history : List (IterationRecord α)
  lastMeta : Option Review
  events : List Event
deriving DecidableEq

/-- The meta-review of iteration `i`: `get_meta_review` applied to the three
reviews sampled at iteration `i` (lines 104-122). -/
def iterMeta {α : Type} (env : Env α) (i : Nat) : Review :=
  env.metaAt i [env.reviewAt i 0, env.reviewAt i 1, env.reviewAt i 2]

/-- The score computed at iteration `i` (line 125). -/
def iterScore {α : Type} (env : Env α) (i : Nat) : ℚ :=
  calculate_paper_score (iterMeta env i)

/-- The events logged by one execution of the loop body at iteration `i`, in
the order the source performs the steps: writeup, three reviews (each with
`num_reflections = 2` and the negative-bias prompt), one meta-review over the
3 reviews, the score, the suggestion call only when the score is below the
target, and the history append. -/
def iterEvents {α : Type} (env : Env α) (T : ℚ) (i : Nat) : List Event :=
  [Event.writeup i, Event.review i 0 2 true, Event.review i 1 2 true,
    Event.review i 2 2 true, Event.metaReview i 3, Event.scored i (iterScore env i)] ++
  (if iterScore env i < T then [Event.suggest i] else []) ++ [Event.record i]

/-- One execution of the while-loop body (lines 94-146) at iteration `i`:
generate the paper, sample 3 reviews, aggregate them, compute the score;
if the score is below the target, fetch suggestions and overwrite the idea's
`improvements` and `priority` entries (lines 128-138); append the iteration
record (lines 141-146).  Returns the new `current_score` and the updated
state. -/
def loopIter {α : Type} (env : Env α) (T : ℚ) (i : Nat) (st : LoopState α) :
    ℚ × LoopState α :=
  let meta := iterMeta env i
  let s := calculate_paper_score meta
  let imp? : Option (ImprovementSet α) :=
    if s < T then some (env.suggestAt i meta) else none
  let idea' : Idea α :=
    match imp? with
    | some imp => dictSet "priority" imp.priority (dictSet "improvements" imp.improvements st.idea)
    | none => st.idea
  (s,
    { idea := idea'
      history := st.history ++ [{ iteration := i, score := s, review := meta, improvements := imp? }]
      lastMeta := some meta
      events := st.events ++ iterEvents env T i })

/-- The while loop (line 93), as fuel-indexed recursion: the loop condition
`current_score < target_score and iteration < max_iterations` is re-tested
before each body execution.  Since `iteration` increases by 1 per pass and
the condition requires `iteration < maxIter`, fuel `maxIter` (with
`iteration` starting at 0) never runs out before the condition fails, so
this is exactly the Python loop. -/
def optimizeGo {α : Type} (env : Env α) (T : ℚ) (maxIter : Nat) :
    Nat → Nat → ℚ → LoopState α → LoopState α
  | 0, _, _, st => st
  | fuel + 1, iteration, curScore, st =>
    if curScore < T ∧ iteration < maxIter then
      optimizeGo env T maxIter fuel (iteration + 1)
        (loopIter env T iteration st).1 (loopIter env T iteration st).2
    else st

/-- Function `optimize_paper` (lines 63-150): `improvement_history = []`,
`current_score = 0`, `iteration = 0`, then the while loop.  The final state
carries the history, the mutated idea, the last meta-review (if any) and the
event trace. -/
def optimize_paper {α : Type} (env : Env α) (idea : Idea α) (T : ℚ) (maxIter : Nat) :
    LoopState α :=
  optimizeGo env T maxIter maxIter 0 0 { idea := idea, history := [], lastMeta := none, events := [] }

/-- The value of `return meta_review, improvement_history` (line 150): when
the loop body never ran, `meta_review` was never assigned and the return
statement raises `UnboundLocalError`, modelled as `Except.error`. -/
def optimize_paper_result {α : Type} (env : Env α) (idea : Idea α) (T : ℚ) (maxIter : Nat) :
    Except String (Review × List (IterationRecord α)) :=
  match (optimize_paper env idea T maxIter).lastMeta with
  | some m => Except.ok (m, (optimize_paper env idea T maxIter).history)
  | none => Except.error "UnboundLocalError: meta_review"

/-- Claimed ordered shape of the event block of one iteration `i`: document
generation first, then exactly 3 review calls each with 2 self-reflection
rounds and the negative-bias prompt, then one meta-review aggregation over
the 3 reviews, then the score, then — only when the score `s` is below the
target — the improvement suggestion, then the history append. -/
def IterBlock (T : ℚ) (i : Nat) (es : List Event) : Prop :=
  ∃ s : ℚ,
    es = [Event.writeup i, Event.review i 0 2 true, Event.review i 1 2 true,
      Event.review i 2 2 true, Event.metaReview i 3, Event.scored i s] ++
      (if s < T then [Event.suggest i] else []) ++ [Event.record i]

/-- A concrete all-fours meta-review used by witnesses. -/
def wMeta : Review :=
  [("Originality", 4), ("Quality", 4), ("Clarity", 4), ("Significance", 4)]

/-- A concrete collaborator transcript for witnesses: every review and
meta-review is `wMeta`; every suggestion response parses to the improvement
set with payloads `0` and `1`. -/
def wEnv : Env Nat :=
  { reviewAt := fun _ _ => wMeta
    metaAt := fun _ _ => wMeta
    suggestAt := fun _ _ => { improvements := 0, priority := 1 } }

/-- A concrete initial idea dict for witnesses. -/
def wIdea : Idea Nat := [("Title", 5)]

/-- The improvement set parsed in every iteration of the witness
transcript. -/
def wImp : ImprovementSet Nat := { improvements := 0, priority := 1 }

/-- The history record of the witness run that meets the target. -/
def wRecA : IterationRecord Nat :=
  { iteration := 0, score := 4, review := wMeta, improvements := none }

/-- The history record of the witness run that stays below the target. -/
def wRecB : IterationRecord Nat :=
  { iteration := 0, score := 4, review := wMeta, improvements := some wImp }

/-- The record appended to the history by iteration `i` (lines 141-146). -/
def iterRecord {α : Type} (env : Env α) (T : ℚ) (i : Nat) : IterationRecord α :=
  { iteration := i
    score := iterScore env i
    review := iterMeta env i
    improvements :=
      if iterScore env i < T then some (env.suggestAt i (iterMeta env i)) else none }

theorem lookup_cons_self {α : Type} (k : String) (v : α) (d : List (String × α)) :
    List.lookup k ((k, v) :: d) = some v := by
  simp [List.lookup_cons]

theorem lookup_cons_ne {α : Type} {k k' : String} (v : α) (d : List (String × α))
    (h : k ≠ k') : List.lookup k ((k', v) :: d) = List.lookup k d := by
  simp [List.lookup_cons, beq_false_of_ne h]

theorem lookup_dictSet_self {α : Type} (k : String) (v : α) (d : List (String × α)) :
    (dictSet k v d).lookup k = some v := by
  induction d with
  | nil => simp [dictSet, lookup_cons_self]
  | cons p d ih =>
    obtain ⟨k', v'⟩ := p
    by_cases h : k' = k
    · subst h
      simp [dictSet, lookup_cons_self]
    · rw [dictSet, if_neg h, lookup_cons_ne _ _ (fun e => h e.symm), ih]

theorem lookup_dictSet_ne {α : Type} {k k' : String} (v : α) (d : List (String × α))
    (h : k' ≠ k) : (dictSet k v d).lookup k' = d.lookup k' := by
  induction d with
  | nil => simp [dictSet, lookup_cons_ne _ _ h]
  | cons p d ih =>
    obtain ⟨k₁, v₁⟩ := p
    by_cases h1 : k₁ = k
    · subst h1
      rw [dictSet, if_pos rfl, lookup_cons_ne _ _ h, lookup_cons_ne _ _ h]
    · rw [dictSet, if_neg h1]
      by_cases h2 : k' = k₁
      · subst h2
        rw [lookup_cons_self, lookup_cons_self]
      · rw [lookup_cons_ne _ _ h2, lookup_cons_ne _ _ h2, ih]

theorem lookup_dictRemove_ne {α : Type} {k k' : String} (d : List (String × α))
    (h : k' ≠ k) : (dictRemove k d).lookup k' = d.lookup k' := by
  induction d with
  | nil => rfl
  | cons p d ih =>
    obtain ⟨k₁, v₁⟩ := p
    by_cases h1 : k₁ = k
    · subst h1
      have : (dictRemove k₁ ((k₁, v₁) :: d)) = dictRemove k₁ d := by
        simp [dictRemove]
      rw [this, ih, lookup_cons_ne _ _ h]
    · have : (dictRemove k ((k₁, v₁) :: d)) = (k₁, v₁) :: dictRemove k d := by
        simp [dictRemove, h1]
      rw [this]
      by_cases h2 : k' = k₁
      · subst h2
        rw [lookup_cons_self, lookup_cons_self]
      · rw [lookup_cons_ne _ _ h2, lookup_cons_ne _ _ h2, ih]

theorem mem_of_lookup_eq_some {α : Type} {d : List (String × α)} {k : String} {v : α}
    (h : d.lookup k = some v) : (k, v) ∈ d := by
  induction d with
  | nil => simp [List.lookup_nil] at h
  | cons p d ih =>
    obtain ⟨k₁, v₁⟩ := p
    by_cases hk : k = k₁
    · subst hk
      rw [lookup_cons_self] at h
      obtain rfl : v₁ = v := by injection h
      exact List.mem_cons_self _ _
    · rw [lookup_cons_ne _ _ hk] at h
      exact List.mem_cons_of_mem _ (ih h)

theorem lookup_eq_of_perm {α : Type} {d d' : List (String × α)}
    (hp : d.Perm d') (hnd : (d.map Prod.fst).Nodup) (k : String) :
    d'.lookup k = d.lookup k := by
  induction hp with
  | nil => rfl
  | cons p hp ih =>
    obtain ⟨k₁, v₁⟩ := p
    simp only [List.map_cons, List.nodup_cons] at hnd
    by_cases h : k = k₁
    · subst h
      rw [lookup_cons_self, lookup_cons_self]
    · rw [lookup_cons_ne _ _ h, lookup_cons_ne _ _ h, ih hnd.2]
  | swap p q l =>
    obtain ⟨k₁, v₁⟩ := p
    obtain ⟨k₂, v₂⟩ := q
    simp only [List.map_cons, List.nodup_cons, List.mem_cons] at hnd
    have hne : k₂ ≠ k₁ := fun e => hnd.1 (Or.inl e)
    by_cases h1 : k = k₁
    · subst h1
      rw [lookup_cons_self, lookup_cons_ne _ _ (fun e => hne e.symm), lookup_cons_self]
    · by_cases h2 : k = k₂
      · subst h2
        rw [lookup_cons_self, lookup_cons_ne _ _ h1, lookup_cons_self]
      · rw [lookup_cons_ne _ _ h1, lookup_cons_ne _ _ h2, lookup_cons_ne _ _ h2,
          lookup_cons_ne _ _ h1]
  | trans hp1 hp2 ih1 ih2 =>
    have hnd2 := (hp1.map Prod.fst).nodup_iff.mp hnd
    rw [ih2 hnd2, ih1 hnd]

theorem score_eq_of_lookup_eq {r r' : Review}
    (h : ∀ m ∈ metrics, r'.lookup m = r.lookup m) :
    calculate_paper_score r' = calculate_paper_score r := by
  unfold calculate_paper_score
  have : metrics.map (fun m => dictGetD r' m 1) = metrics.map (fun m => dictGetD r m 1) :=
    List.map_congr_left fun m hm => by unfold dictGetD; rw [h m hm]
  rw [this]

theorem score_eq_mean (r : Review) :
    calculate_paper_score r =
      (dictGetD r "Originality" 1 + dictGetD r "Quality" 1 +
        dictGetD r "Clarity" 1 + dictGetD r "Significance" 1) / 4 := by
  norm_num [calculate_paper_score, metrics]
  ring

/-- C1: for every Review-shaped mapping `r`, `calculate_paper_score r` is the
arithmetic mean of the four metrics Originality, Quality, Clarity and
Significance, substituting 1 for any metric absent from `r` (absence is
handled by the dictionary default, never an error); in particular the mapping
`{Originality: 4, Quality: 4, Significance: 4}` with Clarity missing scores
`(4+4+1+4)/4 = 3.25`. -/
theorem calculate_paper_score_is_default_mean (r : Review) :
    calculate_paper_score r =
      (dictGetD r "Originality" 1 + dictGetD r "Quality" 1 +
        dictGetD r "Clarity" 1 + dictGetD r "Significance" 1) / 4 ∧
    calculate_paper_score [("Originality", 4), ("Quality", 4), ("Significance", 4)] = 13 / 4 := by
  constructor
  · exact score_eq_mean r
  · simp +decide [calculate_paper_score, metrics, dictGetD, List.lookup_cons]
    norm_num

/-- C8: `calculate_paper_score` is unchanged by adding (or overwriting),
removing, or reordering keys other than the four metric names: setting an
unrelated key, deleting an unrelated key, or permuting the entries (with
duplicate-free keys, as in a Python dict) all leave the score intact. -/
theorem score_invariant_under_unrelated_keys :
    (∀ (r : Review) (k : String) (v : ℚ), k ∉ metrics →
      calculate_paper_score (dictSet k v r) = calculate_paper_score r) ∧
    (∀ (r : Review) (k : String), k ∉ metrics →
      calculate_paper_score (dictRemove k r) = calculate_paper_score r) ∧
    (∀ (r r' : Review), r.Perm r' → (r.map Prod.fst).Nodup →
      calculate_paper_score r' = calculate_paper_score r) := by
  refine ⟨?_, ?_, ?_⟩
  · intro r k v hk
    exact score_eq_of_lookup_eq fun m hm =>
      lookup_dictSet_ne v r (fun e => hk (e ▸ hm))
  · intro r k hk
    exact score_eq_of_lookup_eq fun m hm =>
      lookup_dictRemove_ne r (fun e => hk (e ▸ hm))
  · intro r r' hp hnd
    exact score_eq_of_lookup_eq fun m _ => lookup_eq_of_perm hp hnd m

/-- Witness for C8 on concrete mappings: an unrelated key added, removed, or
reordered does not change the score. -/
theorem score_invariant_under_unrelated_keys_witness :
    calculate_paper_score (dictSet "Soundness" 2 [("Originality", 3)]) =
      calculate_paper_score [("Originality", 3)] ∧
    calculate_paper_score (dictRemove "Soundness" [("Soundness", 2), ("Originality", 3)]) =
      calculate_paper_score [("Soundness", 2), ("Originality", 3)] ∧
    calculate_paper_score [("Quality", 2), ("Originality", 3)] =
      calculate_paper_score [("Originality", 3), ("Quality", 2)] :=
  ⟨score_invariant_under_unrelated_keys.1 _ "Soundness" 2 (by decide),
   score_invariant_under_unrelated_keys.2.1 _ "Soundness" (by decide),
   score_invariant_under_unrelated_keys.2.2 _ _ (by decide) (by decide)⟩

/-- C9: for every Review mapping whose present metric entries each lie in the
nominal range 1 to 4, the score is in the range 1 to 4 as well (a missing
metric defaults to 1, which stays in range; the function itself never fails
and performs no clamping of its own). -/
theorem score_in_nominal_range (r : Review)
    (h : ∀ p ∈ r, p.1 ∈ metrics → 1 ≤ p.2 ∧ p.2 ≤ 4) :
    1 ≤ calculate_paper_score r ∧ calculate_paper_score r ≤ 4 := by
  have hb : ∀ m ∈ metrics, 1 ≤ dictGetD r m 1 ∧ dictGetD r m 1 ≤ 4 := by
    intro m hm
    unfold dictGetD
    cases hl : r.lookup m with
    | none => norm_num
    | some v =>
      have hmem := mem_of_lookup_eq_some hl
      simpa using h (m, v) hmem hm
  have h1 := hb "Originality" (by simp [metrics])
  have h2 := hb "Quality" (by simp [metrics])
  have h3 := hb "Clarity" (by simp [metrics])
  have h4 := hb "Significance" (by simp [metrics])
  rw [score_eq_mean r]
  constructor <;> [linarith [h1.1, h2.1, h3.1, h4.1]; linarith [h1.2, h2.2, h3.2, h4.2]]

/-- Witness for C9: a concrete in-range review whose score lies in `[1, 4]`. -/
theorem score_in_nominal_range_witness :
    1 ≤ calculate_paper_score [("Originality", 4), ("Quality", 4), ("Significance", 4)] ∧
    calculate_paper_score [("Originality", 4), ("Quality", 4), ("Significance", 4)] ≤ 4 :=
  score_in_nominal_range _ (by decide)

theorem loopIter_fst {α : Type} (env : Env α) (T : ℚ) (i : Nat) (st : LoopState α) :
    (loopIter env T i st).1 = iterScore env i := rfl

theorem loopIter_history {α : Type} (env : Env α) (T : ℚ) (i : Nat) (st : LoopState α) :
    (loopIter env T i st).2.history = st.history ++ [iterRecord env T i] := rfl

theorem loopIter_lastMeta {α : Type} (env : Env α) (T : ℚ) (i : Nat) (st : LoopState α) :
    (loopIter env T i st).2.lastMeta = some (iterMeta env i) := rfl

theorem loopIter_events {α : Type} (env : Env α) (T : ℚ) (i : Nat) (st : LoopState α) :
    (loopIter env T i st).2.events = st.events ++ iterEvents env T i := rfl

theorem loopIter_idea {α : Type} (env : Env α) (T : ℚ) (i : Nat) (st : LoopState α) :
    (loopIter env T i st).2.idea =
      if iterScore env i < T then
        dictSet "priority" (env.suggestAt i (iterMeta env i)).priority
          (dictSet "improvements" (env.suggestAt i (iterMeta env i)).improvements st.idea)
      else st.idea := by
  unfold loopIter iterScore
  by_cases h : calculate_paper_score (iterMeta env i) < T <;> simp [h]

theorem iteration_at {α : Type} :
    ∀ (Δ : List (IterationRecord α)) (s : Nat),
      Δ.map (fun r => r.iteration) = List.range' s Δ.length →
      ∀ i (h : i < Δ.length), (Δ.get ⟨i, h⟩).iteration = s + i := by
  intro Δ
  induction Δ with
  | nil => intro s _ i h; simp at h
  | cons a t ih =>
    intro s hmap i h
    rw [List.length_cons, List.range'_succ] at hmap
    simp only [List.map_cons, List.cons.injEq] at hmap
    obtain ⟨ha, ht⟩ := hmap
    cases i with
    | zero => simpa using ha
    | succ j =>
      have hj : j < t.length := by simpa using h
      have heq := ih (s + 1) ht j hj
      have hcons : ((a :: t).get ⟨j + 1, h⟩) = t.get ⟨j, hj⟩ := rfl
      rw [hcons, heq]
      omega

theorem optimizeGo_step {α : Type} (env : Env α) (T : ℚ) (maxIter fuelS fuel iteration : Nat)
    (curScore : ℚ) (st : LoopState α) (hfuel : fuelS = fuel + 1)
    (h1 : curScore < T) (h2 : iteration < maxIter) :
    optimizeGo env T maxIter fuelS iteration curScore st =
      optimizeGo env T maxIter fuel (iteration + 1)
        (loopIter env T iteration st).1 (loopIter env T iteration st).2 := by
  subst hfuel
  simp only [optimizeGo]
  rw [if_pos ⟨h1, h2⟩]

theorem optimizeGo_stop {α : Type} (env : Env α) (T : ℚ) (maxIter fuelS fuel iteration : Nat)
    (curScore : ℚ) (st : LoopState α) (hfuel : fuelS = fuel + 1)
    (h : ¬(curScore < T ∧ iteration < maxIter)) :
    optimizeGo env T maxIter fuelS iteration curScore st = st := by
  subst hfuel
  simp only [optimizeGo]
  rw [if_neg h]

theorem wScore : calculate_paper_score wMeta = 4 := by
  simp +decide [calculate_paper_score, metrics, dictGetD, List.lookup_cons, wMeta]
  norm_num

theorem wIterScore (i : Nat) : iterScore wEnv i = 4 := by
  have h : iterMeta wEnv i = wMeta := rfl
  rw [iterScore, h, wScore]

theorem optimizeGo_spec {α : Type} (env : Env α) (T : ℚ) (maxIter : Nat) :
    ∀ (fuel iteration : Nat) (curScore : ℚ) (st : LoopState α),
      iteration + fuel = maxIter →
      ∃ Δ : List (IterationRecord α),
        (optimizeGo env T maxIter fuel iteration curScore st).history = st.history ++ Δ ∧
        Δ.length ≤ fuel ∧
        (Δ.length < fuel →
          (Δ = [] ∧ T ≤ curScore) ∨ ∃ r, Δ.getLast? = some r ∧ T ≤ r.score) ∧
        (∀ r ∈ Δ,
          r.review = iterMeta env r.iteration ∧
          r.score = calculate_paper_score r.review ∧
          r.improvements =
            (if r.score < T then some (env.suggestAt r.iteration r.review) else none)) ∧
        Δ.map (fun r => r.iteration) = List.range' iteration Δ.length ∧
        (optimizeGo env T maxIter fuel iteration curScore st).lastMeta =
          (Δ.getLast?.map (fun r => some r.review)).getD st.lastMeta ∧
        (optimizeGo env T maxIter fuel iteration curScore st).events =
          st.events ++ (Δ.map (fun r => iterEvents env T r.iteration)).flatten := by
  intro fuel
  induction fuel with
  | zero =>
    intro iteration curScore st _
    exact ⟨[], by simp [optimizeGo], by simp, by simp, by simp, by simp,
      by simp [optimizeGo], by simp [optimizeGo]⟩
  | succ fuel ih =>
    intro iteration curScore st hsum
    by_cases hc : curScore < T ∧ iteration < maxIter
    · have hgo : optimizeGo env T maxIter (fuel + 1) iteration curScore st =
          optimizeGo env T maxIter fuel (iteration + 1)
            (loopIter env T iteration st).1 (loopIter env T iteration st).2 := by
        simp only [optimizeGo]
        rw [if_pos hc]
      obtain ⟨Δ', h1, h2, h3, h4, h5, h6, h7⟩ :=
        ih (iteration + 1) (loopIter env T iteration st).1 (loopIter env T iteration st).2
          (by omega)
      refine ⟨iterRecord env T iteration :: Δ', ?_, ?_, ?_, ?_, ?_, ?_, ?_⟩
      · rw [hgo, h1, loopIter_history]
        simp [List.append_assoc]
      · simp only [List.length_cons]
        omega
      · intro hlen
        have hlen' : Δ'.length < fuel := by
          simp only [List.length_cons] at hlen
          omega
        rcases h3 hlen' with ⟨hnil, hsc⟩ | ⟨r, hr, hrs⟩
        · right
          refine ⟨iterRecord env T iteration, ?_, ?_⟩
          · rw [hnil]
            rfl
          · rw [loopIter_fst] at hsc
            exact hsc
        · right
          refine ⟨r, ?_, hrs⟩
          cases Δ' with
          | nil => simp at hr
          | cons b t => rw [List.getLast?_cons_cons]; exact hr
      · intro r hr
        rcases List.mem_cons.mp hr with rfl | hr'
        · exact ⟨rfl, rfl, rfl⟩
        · exact h4 r hr'
      · simp only [List.map_cons, h5, List.length_cons]
        rw [List.range'_succ]
        rfl
      · rw [hgo, h6, loopIter_lastMeta]
        cases Δ' with
        | nil => rfl
        | cons b t =>
          obtain ⟨x, hx⟩ := Option.isSome_iff_exists.mp
            (List.getLast?_isSome.mpr (List.cons_ne_nil b t))
          rw [List.getLast?_cons_cons, hx]
          rfl
      · rw [hgo, h7, loopIter_events]
        simp [List.append_assoc, iterRecord]
    · have hgo : optimizeGo env T maxIter (fuel + 1) iteration curScore st = st := by
        simp only [optimizeGo]
        rw [if_neg hc]
      have hlt : iteration < maxIter := by omega
      have hTc : T ≤ curScore := by
        rcases not_and_or.mp hc with h | h
        · exact le_of_not_lt h
        · exact absurd hlt h
      exact ⟨[], by rw [hgo]; simp, by simp, fun _ => Or.inl ⟨rfl, hTc⟩, by simp, by simp,
        by rw [hgo]; rfl, by rw [hgo]; simp⟩

theorem suggest_mem_iterEvents {α : Type} (env : Env α) (T : ℚ) (i j : Nat) :
    Event.suggest j ∈ iterEvents env T i ↔ iterScore env i < T ∧ j = i := by
  unfold iterEvents
  by_cases h : iterScore env i < T <;> simp [h, eq_comm]

theorem mem_of_getLast?_some {β : Type} : ∀ {l : List β} {a : β}, l.getLast? = some a → a ∈ l
  | [], _, h => by simp at h
  | [b], a, h => by
    obtain rfl : b = a := by simpa using h
    exact List.mem_singleton_self _
  | b :: c :: t, a, h => by
    rw [List.getLast?_cons_cons] at h
    exact List.mem_cons_of_mem _ (mem_of_getLast?_some h)

theorem optimize_paper_def {α : Type} (env : Env α) (idea : Idea α) (T : ℚ) (M : Nat) :
    optimize_paper env idea T M =
      optimizeGo env T M M 0 0 { idea := idea, history := [], lastMeta := none, events := [] } :=
  rfl

theorem result_ok_elim {α : Type} {env : Env α} {idea : Idea α} {T : ℚ} {M : Nat}
    {m : Review} {hist : List (IterationRecord α)}
    (h : optimize_paper_result env idea T M = Except.ok (m, hist)) :
    (optimize_paper env idea T M).lastMeta = some m ∧
      (optimize_paper env idea T M).history = hist := by
  unfold optimize_paper_result at h
  cases hl : (optimize_paper env idea T M).lastMeta with
  | none => rw [hl] at h; exact absurd h (by simp)
  | some m' =>
    rw [hl] at h
    simp only [Except.ok.injEq, Prod.mk.injEq] at h
    exact ⟨by rw [h.1], h.2⟩

/-- Spec of the whole run: the history is some list `Δ` of at most `M`
records, shorter than `M` only when the run stopped on the score condition;
each record was built from that iteration's meta-review; the records carry
the iteration indices `0, 1, ...` in order; the last meta-review variable
holds the last record's review; and the event trace is the concatenation of
the per-iteration blocks. -/
theorem optimize_paper_spec {α : Type} (env : Env α) (idea : Idea α) (T : ℚ) (M : Nat) :
    ∃ Δ : List (IterationRecord α),
      (optimize_paper env idea T M).history = Δ ∧
      Δ.length ≤ M ∧
      (Δ.length < M → (Δ = [] ∧ T ≤ 0) ∨ ∃ r, Δ.getLast? = some r ∧ T ≤ r.score) ∧
      (∀ r ∈ Δ,
        r.review = iterMeta env r.iteration ∧
        r.score = calculate_paper_score r.review ∧
        r.improvements =
          (if r.score < T then some (env.suggestAt r.iteration r.review) else none)) ∧
      Δ.map (fun r => r.iteration) = List.range' 0 Δ.length ∧
      (optimize_paper env idea T M).lastMeta =
        (Δ.getLast?.map (fun r => some r.review)).getD none ∧
      (optimize_paper env idea T M).events =
        (Δ.map (fun r => iterEvents env T r.iteration)).flatten := by
  obtain ⟨Δ, h1, h2, h3, h4, h5, h6, h7⟩ :=
    optimizeGo_spec env T M M 0 0 { idea := idea, history := [], lastMeta := none, events := [] }
      (by omega)
  rw [optimize_paper_def]
  exact ⟨Δ, by simpa using h1, h2, h3, h4, h5, h6, by simpa using h7⟩

/-- C2: for every run of `optimize_paper` with target score `T` and maximum
iteration count `M ≥ 1` that returns, the returned History has length at
most `M`, and its length is strictly less than `M` only if some
IterationRecord in it has score at least `T`. -/
theorem history_length_bound {α : Type} (env : Env α) (idea : Idea α) (T : ℚ) (M : Nat)
    (m : Review) (hist : List (IterationRecord α)) (hM : 1 ≤ M)
    (hok : optimize_paper_result env idea T M = Except.ok (m, hist)) :
    hist.length ≤ M ∧ (hist.length < M → ∃ r ∈ hist, T ≤ r.score) := by
  obtain ⟨hlm, hh⟩ := result_ok_elim hok
  obtain ⟨Δ, h1, h2, h3, _, _, h6, _⟩ := optimize_paper_spec env idea T M
  have hΔ : hist = Δ := by rw [← hh, h1]
  subst hΔ
  refine ⟨h2, fun hlt => ?_⟩
  rcases h3 hlt with ⟨hnil, _⟩ | ⟨r, hr, hrs⟩
  · rw [h1] at hh
    rw [hlm, hnil] at h6
    simp at h6
  · exact ⟨r, mem_of_getLast?_some hr, hrs⟩

/-- C3: for every run of `optimize_paper` that completes at least one
iteration (equivalently: that returns), the MetaReview it returns is the one
produced in the last executed iteration, the last IterationRecord's score
equals `calculate_paper_score` of that returned MetaReview, and when every
recorded score is below the target the History has length exactly
`max_iterations` (the returned MetaReview being the final iteration's). -/
theorem final_review_is_last {α : Type} (env : Env α) (idea : Idea α) (T : ℚ) (M : Nat)
    (m : Review) (hist : List (IterationRecord α))
    (hok : optimize_paper_result env idea T M = Except.ok (m, hist)) :
    ∃ last, hist.getLast? = some last ∧ last.review = m ∧
      last.score = calculate_paper_score m ∧
      ((∀ r ∈ hist, r.score < T) → hist.length = M) := by
  obtain ⟨hlm, hh⟩ := result_ok_elim hok
  obtain ⟨Δ, h1, h2, h3, h4, _, h6, _⟩ := optimize_paper_spec env idea T M
  have hΔ : hist = Δ := by rw [← hh, h1]
  subst hΔ
  rw [hlm] at h6
  cases hlast : hist.getLast? with
  | none => rw [hlast] at h6; simp at h6
  | some last =>
    rw [hlast] at h6
    have hm : last.review = m := by
      simp only [Option.map_some', Option.getD_some] at h6
      injection h6.symm with e
    refine ⟨last, rfl, hm, ?_, ?_⟩
    · have := (h4 last (mem_of_getLast?_some hlast)).2.1
      rw [this, hm]
    · intro hall
      by_contra hne
      have hlt : hist.length < M := lt_of_le_of_ne h2 hne
      rcases h3 hlt with ⟨hnil, _⟩ | ⟨r, hr, hrs⟩
      · rw [hnil] at hlast; simp at hlast
      · exact absurd hrs (not_le.mpr (hall r (mem_of_getLast?_some hr)))

/-- C4: in every run, each History record with score strictly below the
target carries the improvement set fetched that iteration (present and
non-null), while each record with score at least the target carries no
improvement set and no suggestion call was made for that iteration. -/
theorem improvements_iff_below_target {α : Type} (env : Env α) (idea : Idea α) (T : ℚ)
    (M : Nat) (r : IterationRecord α) (hr : r ∈ (optimize_paper env idea T M).history) :
    (r.score < T → r.improvements = some (env.suggestAt r.iteration r.review)) ∧
    (T ≤ r.score → r.improvements = none ∧
      Event.suggest r.iteration ∉ (optimize_paper env idea T M).events) := by
  obtain ⟨Δ, h1, _, _, h4, _, _, h7⟩ := optimize_paper_spec env idea T M
  rw [h1] at hr
  obtain ⟨hrev, hscore, himp⟩ := h4 r hr
  constructor
  · intro hlt
    rw [himp, if_pos hlt]
  · intro hge
    refine ⟨by rw [himp, if_neg (not_lt.mpr hge)], fun hmem => ?_⟩
    rw [h7] at hmem
    obtain ⟨es, hes, hin⟩ := List.mem_flatten.mp hmem
    obtain ⟨r', hr', hes'⟩ := List.mem_map.mp hes
    rw [← hes'] at hin
    have hsug := (suggest_mem_iterEvents env T r'.iteration r.iteration).mp hin
    have : r.score = iterScore env r'.iteration := by
      rw [hscore, hrev, ← hsug.2]
      rfl
    rw [this] at hge
    exact absurd hsug.1 (not_lt.mpr hge)

/-- C5: after an iteration of the loop in which suggestions were requested
(score strictly below target), the idea's `improvements` and `priority` keys
equal exactly that iteration's ImprovementSet fields — overwriting any prior
values, with no accumulation — and no other key of the idea is modified by
the loop itself; after an iteration without suggestions the idea is
untouched. -/
theorem idea_update_exact {α : Type} (env : Env α) (T : ℚ) (i : Nat) (st : LoopState α) :
    (iterScore env i < T →
      ((loopIter env T i st).2.idea.lookup "improvements" =
          some (env.suggestAt i (iterMeta env i)).improvements ∧
        (loopIter env T i st).2.idea.lookup "priority" =
          some (env.suggestAt i (iterMeta env i)).priority ∧
        ∀ k, k ≠ "improvements" → k ≠ "priority" →
          (loopIter env T i st).2.idea.lookup k = st.idea.lookup k)) ∧
    (T ≤ iterScore env i → (loopIter env T i st).2.idea = st.idea) := by
  constructor
  · intro h
    rw [loopIter_idea, if_pos h]
    refine ⟨?_, ?_, ?_⟩
    · rw [lookup_dictSet_ne _ _ (by decide), lookup_dictSet_self]
    · rw [lookup_dictSet_self]
    · intro k h1 h2
      rw [lookup_dictSet_ne _ _ h2, lookup_dictSet_ne _ _ h1]
  · intro h
    rw [loopIter_idea, if_neg (not_lt.mpr h)]

/-- C6: in every run the event trace is exactly the concatenation of one
block per completed iteration, in iteration order (iteration `i+1`'s block
starts only after iteration `i`'s record event), and each block has the
strict internal order: document generation, then exactly 3 review calls
(each with 2 rounds of self-reflection and the negative-bias reviewer
prompt), then one meta-review aggregation over those 3 reviews, then the
score, then the improvement suggestion only when the score is below target,
then the history append. -/
theorem events_strictly_ordered {α : Type} (env : Env α) (idea : Idea α) (T : ℚ) (M : Nat) :
    ∃ blocks : List (List Event),
      (optimize_paper env idea T M).events = blocks.flatten ∧
      blocks.length = (optimize_paper env idea T M).history.length ∧
      ∀ i (h : i < blocks.length), IterBlock T i (blocks.get ⟨i, h⟩) := by
  obtain ⟨Δ, h1, _, _, _, h5, _, h7⟩ := optimize_paper_spec env idea T M
  refine ⟨Δ.map (fun r => iterEvents env T r.iteration), h7, by simp [h1], ?_⟩
  intro i h
  have hlen : i < Δ.length := by simpa using h
  have hget : (Δ.map (fun r => iterEvents env T r.iteration)).get ⟨i, h⟩ =
      iterEvents env T ((Δ.get ⟨i, hlen⟩).iteration) := by
    simp [List.get_eq_getElem, List.getElem_map]
  have hiter : (Δ.get ⟨i, hlen⟩).iteration = 0 + i := iteration_at Δ 0 h5 i hlen
  rw [hget, hiter, Nat.zero_add]
  exact ⟨iterScore env i, rfl⟩

/-- Witness for C6: on a concrete run the trace decomposes into ordered
iteration blocks. -/
theorem events_strictly_ordered_witness :
    ∃ blocks : List (List Event),
      (optimize_paper wEnv wIdea 2 2).events = blocks.flatten ∧
      blocks.length = (optimize_paper wEnv wIdea 2 2).history.length ∧
      ∀ i (h : i < blocks.length), IterBlock 2 i (blocks.get ⟨i, h⟩) :=
  events_strictly_ordered wEnv wIdea 2 2

/-- C7: with `max_iterations = 0` the loop body never executes — History and
the event trace stay empty — and the function has no MetaReview to return:
the run ends in the `UnboundLocalError` failure rather than a defined
result, so `max_iterations ≥ 1` is a precondition. -/
theorem zero_iterations_fails {α : Type} (env : Env α) (idea : Idea α) (T : ℚ) :
    (optimize_paper env idea T 0).history = [] ∧
    (optimize_paper env idea T 0).events = [] ∧
    optimize_paper_result env idea T 0 = Except.error "UnboundLocalError: meta_review" :=
  ⟨rfl, rfl, rfl⟩

/-- C10: with `target_score ≤ 0` the loop body never executes regardless of
`max_iterations`, because `current_score` is initialised to 0 and the loop
condition `current_score < target_score` is already false at entry; the run
then fails exactly like the `max_iterations = 0` case, with an empty History
and no MetaReview to return. -/
theorem nonpositive_target_fails {α : Type} (env : Env α) (idea : Idea α) (T : ℚ) (M : Nat)
    (hT : T ≤ 0) :
    (optimize_paper env idea T M).history = [] ∧
    (optimize_paper env idea T M).events = [] ∧
    optimize_paper_result env idea T M = Except.error "UnboundLocalError: meta_review" := by
  have hstate : optimize_paper env idea T M =
      { idea := idea, history := [], lastMeta := none, events := [] } := by
    rw [optimize_paper_def]
    cases M with
    | zero => rfl
    | succ M' =>
      simp only [optimizeGo]
      rw [if_neg]
      rintro ⟨h0, _⟩
      exact absurd hT (not_le.mpr h0)
  refine ⟨by rw [hstate], by rw [hstate], ?_⟩
  unfold optimize_paper_result
  rw [hstate]

/-- Witness for C10: a concrete run with target 0 produces the failure. -/
theorem nonpositive_target_fails_witness :
    (optimize_paper wEnv wIdea 0 3).history = [] ∧
    (optimize_paper wEnv wIdea 0 3).events = [] ∧
    optimize_paper_result wEnv wIdea 0 3 = Except.error "UnboundLocalError: meta_review" :=
  nonpositive_target_fails wEnv wIdea 0 3 (by norm_num)

theorem wRunA :
    optimize_paper wEnv wIdea 2 2 =
      { idea := wIdea
        history := [wRecA]
        lastMeta := some wMeta
        events := [Event.writeup 0, Event.review 0 0 2 true, Event.review 0 1 2 true,
          Event.review 0 2 2 true, Event.metaReview 0 3, Event.scored 0 4,
          Event.record 0] } := by
  have hcur : (loopIter wEnv 2 0
      ({ idea := wIdea, history := [], lastMeta := none, events := [] } : LoopState Nat)).1 = 4 := by
    rw [loopIter_fst, wIterScore]
  rw [optimize_paper_def]
  rw [optimizeGo_step wEnv 2 2 2 1 0 0 _ (by norm_num) (by norm_num) (by norm_num)]
  rw [optimizeGo_stop wEnv 2 2 1 0 1 _ _ (by norm_num) (by rw [hcur]; norm_num)]
  norm_num [loopIter, iterMeta, iterScore, iterEvents, wEnv, wScore, wRecA]

theorem wResultA :
    optimize_paper_result wEnv wIdea 2 2 = Except.ok (wMeta, [wRecA]) := by
  unfold optimize_paper_result
  rw [wRunA]

theorem wRunB :
    optimize_paper wEnv wIdea 5 1 =
      { idea := [("Title", 5), ("improvements", 0), ("priority", 1)]
        history := [wRecB]
        lastMeta := some wMeta
        events := [Event.writeup 0, Event.review 0 0 2 true, Event.review 0 1 2 true,
          Event.review 0 2 2 true, Event.metaReview 0 3, Event.scored 0 4,
          Event.suggest 0, Event.record 0] } := by
  rw [optimize_paper_def]
  rw [optimizeGo_step wEnv 5 1 1 0 0 0 _ (by norm_num) (by norm_num) (by norm_num)]
  show (loopIter wEnv 5 0
    ({ idea := wIdea, history := [], lastMeta := none, events := [] } : LoopState Nat)).2 = _
  norm_num [loopIter, iterMeta, iterScore, iterEvents, wEnv, wScore, dictSet, wIdea,
    wRecB, wImp]
  decide

theorem wResultB :
    optimize_paper_result wEnv wIdea 5 1 = Except.ok (wMeta, [wRecB]) := by
  unfold optimize_paper_result
  rw [wRunB]

/-- Witness for C2 on the concrete transcript `wEnv` with target 2 and
maximum 2: the run returns after one iteration, the History has length
1 ≤ 2, and since 1 < 2 one record has score ≥ 2. -/
theorem history_length_bound_witness :
    ([wRecA] : List (IterationRecord Nat)).length ≤ 2 ∧
    (([wRecA] : List (IterationRecord Nat)).length < 2 →
      ∃ r ∈ ([wRecA] : List (IterationRecord Nat)), (2 : ℚ) ≤ r.score) :=
  history_length_bound wEnv wIdea 2 2 wMeta _ (by norm_num) wResultA

/-- Witness for C3 on the concrete transcript `wEnv` with target 5 and
maximum 1: the returned MetaReview is the last record's review, the last
score equals its recomputed score, and all scores below target forces
History length = maximum. -/
theorem final_review_is_last_witness :
    ∃ last, ([wRecB] : List (IterationRecord Nat)).getLast? = some last ∧
      last.review = wMeta ∧ last.score = calculate_paper_score wMeta ∧
      ((∀ r ∈ ([wRecB] : List (IterationRecord Nat)), r.score < 5) →
        ([wRecB] : List (IterationRecord Nat)).length = 1) :=
  final_review_is_last wEnv wIdea 5 1 wMeta _ wResultB

/-- Witness for C4 on the concrete transcript `wEnv` with target 5: the
single record scored 4 < 5 and carries exactly the fetched improvement
set. -/
theorem improvements_iff_below_target_witness :
    (wRecB.score < 5 →
      wRecB.improvements = some (wEnv.suggestAt wRecB.iteration wRecB.review)) ∧
    ((5 : ℚ) ≤ wRecB.score →
      wRecB.improvements = none ∧
      Event.suggest wRecB.iteration ∉ (optimize_paper wEnv wIdea 5 1).events) :=
  improvements_iff_below_target wEnv wIdea 5 1 wRecB (by rw [wRunB]; simp)

/-- Witness for C5 on the concrete transcript `wEnv` with target 5: after
the iteration the idea's `improvements` and `priority` keys hold exactly the
fetched fields and the unrelated `Title` key is untouched. -/
theorem idea_update_exact_witness :
    (loopIter wEnv 5 0
        ({ idea := wIdea, history := [], lastMeta := none, events := [] } :
          LoopState Nat)).2.idea.lookup "improvements" =
      some (wEnv.suggestAt 0 (iterMeta wEnv 0)).improvements ∧
    (loopIter wEnv 5 0
        ({ idea := wIdea, history := [], lastMeta := none, events := [] } :
          LoopState Nat)).2.idea.lookup "priority" =
      some (wEnv.suggestAt 0 (iterMeta wEnv 0)).priority ∧
    ∀ k, k ≠ "improvements" → k ≠ "priority" →
      (loopIter wEnv 5 0
        ({ idea := wIdea, history := [], lastMeta := none, events := [] } :
          LoopState Nat)).2.idea.lookup k =
        ({ idea := wIdea, history := [], lastMeta := none, events := [] } :
          LoopState Nat).idea.lookup k :=
  (idea_update_exact wEnv 5 0 _).1 (by rw [wIterScore]; norm_num)

end PaperOptimizer
